import Mathlib

/-!
Shallow embedding of `src/baby_names.py`, the single-file Streamlit app for
exploring US baby-name popularity.  A polars DataFrame is modelled as a list
of typed rows, a boolean Series as a `List Bool`, and the window expressions
of `load_data` as functions of the row index.  Network fetching, ZIP
extraction and CSV parsing are external collaborators: the loader is
modelled from the point where each archive entry has been parsed into the
typed records its fixed schema prescribes.  The machine integers `Int16`
(year) and `Int32` (count) are modelled as `Int`; the SSA values (years
1880..2100, counts below 10^5) are far from every overflow boundary, so no
wrap-around modelling is needed.  The float64 `popularity` ratio is modelled
as an exact rational.
-/

/-- A row of the state table (`load_data`, lines 58-77): state archive
entries carry the columns `state, gender, year, name, count` directly. -/
structure Row where
  state : String
  gender : String
  year : Int
  name : String
  count : Int
deriving DecidableEq

/-- A record of one national archive entry (`load_data`, lines 79-102):
national entries carry only `name, gender, count`; the `year` column is
derived from the entry's filename and `state` is the injected sentinel
`"nation"`. -/
structure NatRec where
  name : String
  gender : String
  count : Int
deriving DecidableEq

/-- A row of the merged table returned by `load_data` (lines 104-112): the
five source columns plus the two derived columns. -/
structure OutRow where
  state : String
  gender : String
  year : Int
  name : String
  count : Int
  popularity : ℚ
  rank : ℕ
deriving DecidableEq

/-- Python `str.capitalize()`: first character upper-cased, the remaining
characters lower-cased (ASCII semantics, which is all the app relies on). -/
def pyCapitalize (s : String) : String :=
  match s.data with
  | [] => ""
  | c :: cs => ⟨Char.toUpper c :: cs.map Char.toLower⟩

/-- Python whitespace characters recognised by `str.strip()`. -/
def pyIsSpace (c : Char) : Bool :=
  c == ' ' || c == '\t' || c == '\n' || c == '\r' ||
    c == Char.ofNat 11 || c == Char.ofNat 12

/-- Python `str.strip()`: drop leading and trailing whitespace. -/
def pyStrip (s : String) : String :=
  ⟨((s.data.dropWhile pyIsSpace).reverse.dropWhile pyIsSpace).reverse⟩

/-- Python `s.startswith(p)`: the characters of `p` are a prefix of the
characters of `s`. -/
def pyStartsWith (s p : String) : Bool :=
  decide (p.data <+: s.data)

/-- Python `sep in s` for a one-character separator. -/
def pyContains (s : String) (c : Char) : Bool :=
  s.data.contains c

/-- Python `str.split(sep)` on the character list, for a one-character
separator: split at every occurrence, keeping empty pieces. -/
def pySplit (sep : Char) : List Char → List (List Char)
  | [] => [[]]
  | c :: rest =>
    match pySplit sep rest with
    | [] => [[]]
    | h :: t => if c = sep then [] :: h :: t else (c :: h) :: t

/-- Python `str.split(sep)` as a `String` operation. -/
def pySplitOn (s : String) (sep : Char) : List String :=
  (pySplit sep s.data).map (fun cs => ⟨cs⟩)

/-- The grouping key of the window expressions of `load_data` (lines
106 and 110): `.over(["state", "gender", "year"])`. -/
def keyOf (r : Row) : String × String × Int :=
  (r.state, r.gender, r.year)

/-- Indices of the rows in the same (state, gender, year) partition as
row `i`. -/
def partitionOf (df : List Row) (i : Fin df.length) : Finset (Fin df.length) :=
  Finset.univ.filter (fun j => keyOf (df.get j) = keyOf (df.get i))

/-- The `count` column at row `i`. -/
def countAt (df : List Row) (i : Fin df.length) : Int :=
  (df.get i).count

/-- Row `j` precedes row `i` in the descending ordinal ranking of
`rank(method="ordinal", descending=True)` (lines 108-110): it has a strictly
larger count, or an equal count and an earlier position (ordinal ranking
resolves ties by order of occurrence). -/
def beats (df : List Row) (j i : Fin df.length) : Prop :=
  countAt df i < countAt df j ∨ (countAt df j = countAt df i ∧ j < i)

instance (df : List Row) (j i : Fin df.length) : Decidable (beats df j i) := by
  unfold beats
  exact inferInstance

/-- Rows of the partition of `i` that precede `i` in the descending ordinal
order. -/
def beatSet (df : List Row) (i : Fin df.length) : Finset (Fin df.length) :=
  (partitionOf df i).filter (fun j => beats df j i)

/-- The `rank` column (lines 108-110): ordinal rank of `count` within the
(state, gender, year) partition, descending — one plus the number of
partition rows that precede row `i`. -/
def rankOf (df : List Row) (i : Fin df.length) : ℕ :=
  1 + (beatSet df i).card

/-- Sum of `count` over the partition of row `i`
(`pl.col("count").sum().over(...)`, line 106), as a rational. -/
def partSum (df : List Row) (i : Fin df.length) : ℚ :=
  ∑ j ∈ partitionOf df i, (countAt df j : ℚ)

/-- The `popularity` column (lines 105-107):
`pl.col("count") / pl.col("count").sum().over(...)`. -/
def popOf (df : List Row) (i : Fin df.length) : ℚ :=
  (countAt df i : ℚ) / partSum df i

/-- National rows (lines 91-97): tag each record with the filename-derived
year and the sentinel state `"nation"`. -/
def natToRow (year : Int) (r : NatRec) : Row :=
  ⟨"nation", r.gender, year, r.name, r.count⟩

/-- The concatenated national table (lines 79-102): each archive entry is
given as its filename-derived year together with its parsed records. -/
def loadNational (natFiles : List (Int × List NatRec)) : List Row :=
  natFiles.flatMap (fun f => f.2.map (natToRow f.1))

/-- The merged five-column table of line 104:
`pl.concat(items=[df_national, df_state])`. -/
def mergedDf (natFiles : List (Int × List NatRec)) (stateRows : List Row) :
    List Row :=
  loadNational natFiles ++ stateRows

/-- The table returned by `load_data` (lines 104-112): the merged table with
the windowed `popularity` and `rank` columns attached to every row. -/
def load_data (natFiles : List (Int × List NatRec)) (stateRows : List Row) :
    List OutRow :=
  (List.finRange (mergedDf natFiles stateRows).length).map (fun i =>
    ⟨((mergedDf natFiles stateRows).get i).state,
     ((mergedDf natFiles stateRows).get i).gender,
     ((mergedDf natFiles stateRows).get i).year,
     ((mergedDf natFiles stateRows).get i).name,
     ((mergedDf natFiles stateRows).get i).count,
     popOf (mergedDf natFiles stateRows) i,
     rankOf (mergedDf natFiles stateRows) i⟩)

/-- The boolean mask of `find_matching_rows` (lines 115-128): exact or
prefix match of `name` against the capitalized text, conjoined with
membership of `year` in `years` and of `state` in `states` (`is_in`). -/
def find_matching_rows (df : List OutRow) (text : String) (years : List Int)
    (states : List String) (starts_with : Bool) : List Bool :=
  df.map (fun r =>
    (if starts_with then pyStartsWith r.name (pyCapitalize text)
     else r.name == pyCapitalize text)
      && decide (r.year ∈ years) && decide (r.state ∈ states))

/-- polars `Series.filter(mask)`: keep the entries at which the mask is
true. -/
def applyMask (df : List OutRow) (mask : List Bool) : List OutRow :=
  (df.zip mask).filterMap (fun p => if p.2 then some p.1 else none)

/-- The `name` column computed by `filter_name` (lines 132-137):
`df["name"].filter(mask).unique().sort().head(n_rows)` with the prefix mask
over the module-level `years` and `states` selections.  polars `unique()`
returns the distinct values in an unspecified order which the following
`sort()` makes irrelevant; it is modelled by `dedup`. -/
def filter_name (df : List OutRow) (text : String) (years : List Int)
    (states : List String) (n_rows : ℕ) : List String :=
  ((((applyMask df (find_matching_rows df text years states true)).map
    (fun r => r.name)).dedup).mergeSort).take n_rows

/-- The `check_match` function (lines 140-142): `.any()` over the
exact-match mask. -/
def check_match (df : List OutRow) (text : String) (years : List Int)
    (states : List String) : Bool :=
  (find_matching_rows df text years states false).any (fun b => b)

/-- The gender fallback of lines 223-225:
`if not gender_select: gender_select.value = ["F", "M"]`.  The guarded
statement assigns an attribute on the list object; it never rebinds the name
`gender_select` (at runtime it in fact raises `AttributeError`, because
Python lists do not accept attribute assignment), so the selection the later
filter reads is unchanged. -/
def effectiveGenders (gender_select : List String) : List String :=
  gender_select

/-- The token list of line 230: split the input on `,`, then strip and
capitalize each token. -/
def parsed_names (s : String) : List String :=
  (pySplitOn s ',').map (fun t => pyCapitalize (pyStrip t))

/-- The plot slice of lines 248-256: name equality (single name) or
membership (multiple names), state membership, `year.is_between(*years)`
(bounds included), and gender membership — all conjoined. -/
def plotFilter (df : List OutRow) (nameSel : Sum String (List String))
    (states : List String) (lo hi : Int) (genders : List String) :
    List OutRow :=
  df.filter (fun r =>
    (match nameSel with
     | Sum.inl n => r.name == n
     | Sum.inr ns => decide (r.name ∈ ns))
      && decide (r.state ∈ states)
      && (decide (lo ≤ r.year) && decide (r.year ≤ hi))
      && decide (r.gender ∈ genders))

/-- Result of one run of the module tail (lines 228-301): no plot without
input, a per-name not-found message when some queried name is missing, or
the plotted slice. -/
inductive Outcome where
  | noInput : Outcome
  | notFound (missing : List String) : Outcome
  | plot (rows : List OutRow) : Outcome
deriving DecidableEq

/-- The module tail (lines 228-301) as a function of the widget state:
`first_name` is the text box value (`none` before any input), `(lo, hi)` the
year slider pair — the code passes that pair itself to `check_match`, whose
`is_in` reads it as the two-element collection `[lo, hi]`, and unpacks it
into `is_between(lo, hi)` for the plot filter — `states` the state
selection, and `genders` the gender selection after the line 223-225
fallback attempt.  The Python truthiness test `if first_name:` is the
emptiness test on the capitalized string or on the parsed token list. -/
def driver (df : List OutRow) (first_name : Option String) (lo hi : Int)
    (states genders : List String) : Outcome :=
  match first_name with
  | none => Outcome.noInput
  | some s =>
    if pyContains s ',' then
      if (parsed_names s).isEmpty then Outcome.noInput
      else if (parsed_names s).all (fun n => check_match df n [lo, hi] states) then
        Outcome.plot (plotFilter df (Sum.inr (parsed_names s)) states lo hi
          (effectiveGenders genders))
      else Outcome.notFound
        ((parsed_names s).filter (fun n => !check_match df n [lo, hi] states))
    else
      if pyCapitalize s == "" then Outcome.noInput
      else if check_match df (pyCapitalize s) [lo, hi] states then
        Outcome.plot (plotFilter df (Sum.inl (pyCapitalize s)) states lo hi
          (effectiveGenders genders))
      else Outcome.notFound [pyCapitalize s]

/-- Sample state-archive row used by the concrete witnesses below. -/
def rowA : Row :=
  ⟨"AK", "F", 2020, "Emma", 5⟩

/-- Sample merged-table row used by the concrete witnesses below. -/
def orowA : OutRow :=
  ⟨"nation", "F", 2015, "Emma", 19738, 1, 1⟩

theorem mem_partitionOf {df : List Row} {i j : Fin df.length} :
    j ∈ partitionOf df i ↔ keyOf (df.get j) = keyOf (df.get i) := by
  simp [partitionOf]

theorem self_mem_partitionOf (df : List Row) (i : Fin df.length) :
    i ∈ partitionOf df i :=
  mem_partitionOf.mpr rfl

theorem partitionOf_eq_of_mem {df : List Row} {i j : Fin df.length}
    (h : j ∈ partitionOf df i) : partitionOf df j = partitionOf df i := by
  rw [mem_partitionOf] at h
  ext m
  rw [mem_partitionOf, mem_partitionOf, h]

theorem beats_irrefl (df : List Row) (i : Fin df.length) : ¬ beats df i i := by
  simp [beats]

theorem beats_trans {df : List Row} {a b c : Fin df.length}
    (h1 : beats df a b) (h2 : beats df b c) : beats df a c := by
  rcases h1 with h1 | ⟨e1, l1⟩ <;> rcases h2 with h2 | ⟨e2, l2⟩
  · exact Or.inl (by omega)
  · exact Or.inl (by omega)
  · exact Or.inl (by omega)
  · exact Or.inr ⟨by omega, lt_trans l1 l2⟩

theorem beats_total {df : List Row} {i j : Fin df.length} (hne : i ≠ j) :
    beats df i j ∨ beats df j i := by
  rcases lt_trichotomy (countAt df i) (countAt df j) with h | h | h
  · exact Or.inr (Or.inl h)
  · rcases hne.lt_or_lt with hij | hji
    · exact Or.inl (Or.inr ⟨h, hij⟩)
    · exact Or.inr (Or.inr ⟨h.symm, hji⟩)
  · exact Or.inl (Or.inl h)

theorem mem_beatSet {df : List Row} {i j : Fin df.length} :
    j ∈ beatSet df i ↔ j ∈ partitionOf df i ∧ beats df j i :=
  Finset.mem_filter

theorem rank_lt_of_beats {df : List Row} {i a b : Fin df.length}
    (ha : a ∈ partitionOf df i) (hb : b ∈ partitionOf df i)
    (hba : beats df b a) : rankOf df b < rankOf df a := by
  have hPa : partitionOf df a = partitionOf df i := partitionOf_eq_of_mem ha
  have hPb : partitionOf df b = partitionOf df i := partitionOf_eq_of_mem hb
  have hsub : insert b (beatSet df b) ⊆ beatSet df a := by
    intro m hm
    rcases Finset.mem_insert.mp hm with rfl | hm
    · exact mem_beatSet.mpr ⟨by rw [hPa]; exact hb, hba⟩
    · rcases mem_beatSet.mp hm with ⟨hmP, hmb⟩
      rw [hPb] at hmP
      exact mem_beatSet.mpr ⟨by rw [hPa]; exact hmP, beats_trans hmb hba⟩
  have hnm : b ∉ beatSet df b := fun h => beats_irrefl df b (mem_beatSet.mp h).2
  have hcard := Finset.card_le_card hsub
  rw [Finset.card_insert_of_not_mem hnm] at hcard
  simp only [rankOf]
  omega

theorem rankOf_injOn (df : List Row) (i : Fin df.length) :
    Set.InjOn (rankOf df) (partitionOf df i : Set (Fin df.length)) := by
  intro a ha b hb hab
  rw [Finset.mem_coe] at ha hb
  by_contra hne
  rcases beats_total hne with h | h
  · exact absurd hab (Nat.ne_of_lt (rank_lt_of_beats hb ha h))
  · exact absurd hab (Nat.ne_of_gt (rank_lt_of_beats ha hb h))

theorem rankOf_mem_Icc {df : List Row} {i a : Fin df.length}
    (ha : a ∈ partitionOf df i) :
    rankOf df a ∈ Finset.Icc 1 (partitionOf df i).card := by
  rw [Finset.mem_Icc]
  refine ⟨Nat.le_add_right 1 _, ?_⟩
  have hsub : beatSet df a ⊆ (partitionOf df i).erase a := by
    intro m hm
    rcases mem_beatSet.mp hm with ⟨hmP, hmb⟩
    refine Finset.mem_erase.mpr ⟨fun e => beats_irrefl df a (e ▸ hmb), ?_⟩
    rw [partitionOf_eq_of_mem ha] at hmP
    exact hmP
  have h1 := Finset.card_le_card hsub
  have h2 : ((partitionOf df i).erase a).card = (partitionOf df i).card - 1 :=
    Finset.card_erase_of_mem ha
  have h3 : 1 ≤ (partitionOf df i).card := Finset.card_pos.mpr ⟨a, ha⟩
  simp only [rankOf]
  omega

theorem rankOf_image_partition (df : List Row) (i : Fin df.length) :
    Finset.image (rankOf df) (partitionOf df i)
      = Finset.Icc 1 (partitionOf df i).card := by
  have hsub : Finset.image (rankOf df) (partitionOf df i)
      ⊆ Finset.Icc 1 (partitionOf df i).card := by
    intro m hm
    rcases Finset.mem_image.mp hm with ⟨a, ha, rfl⟩
    exact rankOf_mem_Icc ha
  refine Finset.eq_of_subset_of_card_le hsub ?_
  rw [Nat.card_Icc, Finset.card_image_of_injOn (rankOf_injOn df i)]
  omega

theorem exists_max_rank_one (df : List Row) (i : Fin df.length) :
    ∃ j ∈ partitionOf df i,
      (∀ m ∈ partitionOf df i, countAt df m ≤ countAt df j)
        ∧ rankOf df j = 1 := by
  obtain ⟨b, hb, hbmax⟩ := Finset.exists_max_image (partitionOf df i)
    (countAt df) ⟨i, self_mem_partitionOf df i⟩
  have hbM : b ∈ (partitionOf df i).filter
      (fun m => countAt df m = countAt df b) :=
    Finset.mem_filter.mpr ⟨hb, rfl⟩
  have hMne : ((partitionOf df i).filter
      (fun m => countAt df m = countAt df b)).Nonempty := ⟨b, hbM⟩
  have hjM := Finset.min'_mem _ hMne
  have hjP : ((partitionOf df i).filter
      (fun m => countAt df m = countAt df b)).min' hMne ∈ partitionOf df i :=
    (Finset.mem_filter.mp hjM).1
  have hjc : countAt df (((partitionOf df i).filter
      (fun m => countAt df m = countAt df b)).min' hMne) = countAt df b :=
    (Finset.mem_filter.mp hjM).2
  refine ⟨_, hjP, fun m hm => by have := hbmax m hm; omega, ?_⟩
  have hempty : beatSet df (((partitionOf df i).filter
      (fun m => countAt df m = countAt df b)).min' hMne) = ∅ := by
    rw [Finset.eq_empty_iff_forall_not_mem]
    intro m hm
    rcases mem_beatSet.mp hm with ⟨hmP, hmb⟩
    rw [partitionOf_eq_of_mem hjP] at hmP
    rcases hmb with hlt | ⟨heq, hltj⟩
    · have := hbmax m hmP
      omega
    · have hmM : m ∈ (partitionOf df i).filter
          (fun l => countAt df l = countAt df b) :=
        Finset.mem_filter.mpr ⟨hmP, by omega⟩
      have hle := Finset.min'_le _ m hmM
      exact absurd hltj (not_lt.mpr hle)
  rw [rankOf, hempty]
  simp

/-- C1: within every (state, gender, year) partition of the merged table
produced by load_data, the rank values are exactly the integers 1..k (k the
partition row count, no duplicate or skipped ranks), and a row carrying the
maximum count of the partition has rank 1.  The first conjunct identifies
the rank column of load_data with the ordinal window rank `rankOf`. -/
theorem rank_partition_permutation (natFiles : List (Int × List NatRec))
    (stateRows : List Row) (i : Fin (mergedDf natFiles stateRows).length) :
    (load_data natFiles stateRows).map OutRow.rank
        = (List.finRange (mergedDf natFiles stateRows).length).map
            (rankOf (mergedDf natFiles stateRows))
      ∧ Finset.image (rankOf (mergedDf natFiles stateRows))
            (partitionOf (mergedDf natFiles stateRows) i)
          = Finset.Icc 1 (partitionOf (mergedDf natFiles stateRows) i).card
      ∧ ∃ j ∈ partitionOf (mergedDf natFiles stateRows) i,
          (∀ m ∈ partitionOf (mergedDf natFiles stateRows) i,
            countAt (mergedDf natFiles stateRows) m
              ≤ countAt (mergedDf natFiles stateRows) j)
            ∧ rankOf (mergedDf natFiles stateRows) j = 1 := by
  refine ⟨?_, rankOf_image_partition _ i, exists_max_rank_one _ i⟩
  simp only [load_data, List.map_map]
  rfl

theorem partSum_eq_of_mem {df : List Row} {i j : Fin df.length}
    (h : j ∈ partitionOf df i) : partSum df j = partSum df i := by
  rw [partSum, partSum, partitionOf_eq_of_mem h]

theorem partSum_pos {df : List Row}
    (hpos : ∀ j : Fin df.length, 0 < countAt df j) (i : Fin df.length) :
    0 < partSum df i := by
  rw [partSum]
  apply Finset.sum_pos
  · intro j _
    exact_mod_cast hpos j
  · exact ⟨i, self_mem_partitionOf df i⟩

theorem popOf_mem_Ioc {df : List Row}
    (hpos : ∀ j : Fin df.length, 0 < countAt df j) (i : Fin df.length) :
    0 < popOf df i ∧ popOf df i ≤ 1 := by
  have hS := partSum_pos hpos i
  constructor
  · exact div_pos (by exact_mod_cast hpos i) hS
  · rw [popOf, div_le_one hS, partSum]
    exact @Finset.single_le_sum _ ℚ _ (fun j => (countAt df j : ℚ))
      (partitionOf df i) (fun j _ => by show (0 : ℚ) ≤ ((countAt df j : ℤ) : ℚ); exact_mod_cast le_of_lt (hpos j))
      i (self_mem_partitionOf df i)

theorem popOf_sum_partition {df : List Row}
    (hpos : ∀ j : Fin df.length, 0 < countAt df j) (i : Fin df.length) :
    ∑ j ∈ partitionOf df i, popOf df j = 1 := by
  have hS := partSum_pos hpos i
  have hcongr : ∀ j ∈ partitionOf df i,
      popOf df j = (countAt df j : ℚ) / partSum df i := by
    intro j hj
    rw [popOf, partSum_eq_of_mem hj]
  rw [Finset.sum_congr rfl hcongr, ← Finset.sum_div]
  exact div_self (ne_of_gt hS)

/-- C5: for every row of the merged table, popularity is the row's count
divided by the partition's count sum, it lies in (0, 1], and the popularity
values of one partition sum exactly to 1 (the real-arithmetic content behind
the floating-point tolerance), under the dataset invariant that every count
is positive.  The first conjunct identifies the popularity column of
load_data with the windowed ratio `popOf`. -/
theorem popularity_partition_spec (natFiles : List (Int × List NatRec))
    (stateRows : List Row) (i : Fin (mergedDf natFiles stateRows).length)
    (hpos : ∀ j : Fin (mergedDf natFiles stateRows).length,
      0 < countAt (mergedDf natFiles stateRows) j) :
    (load_data natFiles stateRows).map OutRow.popularity
        = (List.finRange (mergedDf natFiles stateRows).length).map
            (popOf (mergedDf natFiles stateRows))
      ∧ (0 < popOf (mergedDf natFiles stateRows) i
          ∧ popOf (mergedDf natFiles stateRows) i ≤ 1)
      ∧ ∑ j ∈ partitionOf (mergedDf natFiles stateRows) i,
          popOf (mergedDf natFiles stateRows) j = 1 := by
  refine ⟨?_, popOf_mem_Ioc hpos i, popOf_sum_partition hpos i⟩
  simp only [load_data, List.map_map]
  rfl

theorem popularity_partition_spec_witness :
    (0 < popOf (mergedDf [] [rowA]) ⟨0, by decide⟩
        ∧ popOf (mergedDf [] [rowA]) ⟨0, by decide⟩ ≤ 1)
      ∧ ∑ j ∈ partitionOf (mergedDf [] [rowA]) ⟨0, by decide⟩,
          popOf (mergedDf [] [rowA]) j = 1 :=
  ⟨(popularity_partition_spec [] [rowA] ⟨0, by decide⟩ (by decide)).2.1,
   (popularity_partition_spec [] [rowA] ⟨0, by decide⟩ (by decide)).2.2⟩

/-- C2: find_matching_rows returns a boolean mask over the rows (same
length as the table); with starts_with = false the mask is true exactly at
rows whose name equals the capitalized text, with starts_with = true
exactly at rows whose name starts with the capitalized text, in both cases
conjoined with year and state membership. -/
theorem find_matching_rows_spec (df : List OutRow) (text : String)
    (years : List Int) (states : List String) (starts_with : Bool) (i : ℕ)
    (r : OutRow) (hr : df[i]? = some r) :
    (find_matching_rows df text years states starts_with).length = df.length
      ∧ ((find_matching_rows df text years states false)[i]? = some true
          ↔ r.name = pyCapitalize text ∧ r.year ∈ years ∧ r.state ∈ states)
      ∧ ((find_matching_rows df text years states true)[i]? = some true
          ↔ (pyCapitalize text).data <+: r.name.data
              ∧ r.year ∈ years ∧ r.state ∈ states) := by
  refine ⟨by simp [find_matching_rows], ?_, ?_⟩
  · rw [find_matching_rows, List.getElem?_map, hr]
    simp [and_assoc]
  · rw [find_matching_rows, List.getElem?_map, hr]
    simp [pyStartsWith, and_assoc]

theorem find_matching_rows_spec_witness :
    (find_matching_rows [orowA] "emma" [2015] ["nation"] false).length
        = ([orowA] : List OutRow).length
      ∧ ((find_matching_rows [orowA] "emma" [2015] ["nation"] false)[0]?
            = some true
          ↔ orowA.name = pyCapitalize "emma"
              ∧ orowA.year ∈ [(2015 : Int)] ∧ orowA.state ∈ ["nation"])
      ∧ ((find_matching_rows [orowA] "emma" [2015] ["nation"] true)[0]?
            = some true
          ↔ (pyCapitalize "emma").data <+: orowA.name.data
              ∧ orowA.year ∈ [(2015 : Int)] ∧ orowA.state ∈ ["nation"]) :=
  find_matching_rows_spec [orowA] "emma" [2015] ["nation"] false 0 orowA rfl

/-- C10: the exact-match mask implies the prefix-match mask row by row — a
row selected by find_matching_rows with starts_with = false is also
selected with starts_with = true on the same arguments. -/
theorem exact_match_implies_prefix_match (df : List OutRow) (text : String)
    (years : List Int) (states : List String) (i : ℕ)
    (h : (find_matching_rows df text years states false)[i]? = some true) :
    (find_matching_rows df text years states true)[i]? = some true := by
  rcases hr : df[i]? with _ | r
  · rw [find_matching_rows, List.getElem?_map, hr] at h
    simp at h
  · rw [find_matching_rows, List.getElem?_map, hr] at h ⊢
    simp [pyStartsWith] at h ⊢
    refine ⟨⟨?_, h.1.2⟩, h.2⟩
    rw [h.1.1]

theorem exact_match_implies_prefix_match_witness :
    (find_matching_rows [orowA] "emma" [2015] ["nation"] true)[0]?
      = some true :=
  exact_match_implies_prefix_match [orowA] "emma" [2015] ["nation"] 0
    (by decide)

/-- C4 counterexample: load_data stores the source name verbatim, so a
mixed-case source name reaches the merged table without being normalized to
Title case on ingestion. -/
theorem names_not_normalized_counterexample :
    (load_data [] [⟨"AK", "F", 2020, "aNNa", 5⟩]).map OutRow.name = ["aNNa"]
      ∧ pyCapitalize "aNNa" ≠ "aNNa" := by
  exact ⟨rfl, by decide⟩

/-- C4 amended: load_data performs no capitalization normalization — the
name column of the merged table is the source names verbatim; the canonical
single-capitalization property therefore holds exactly when the source data
already follows the Title-case convention (as the SSA files do), in which
case every stored name equals its own capitalization, the form lookups
compare against. -/
theorem load_data_names_verbatim (natFiles : List (Int × List NatRec))
    (stateRows : List Row)
    (hnat : ∀ f ∈ natFiles, ∀ rec ∈ f.2, pyCapitalize rec.name = rec.name)
    (hst : ∀ r ∈ stateRows, pyCapitalize r.name = r.name) :
    (load_data natFiles stateRows).map OutRow.name
        = (mergedDf natFiles stateRows).map Row.name
      ∧ ∀ r ∈ load_data natFiles stateRows, pyCapitalize r.name = r.name := by
  constructor
  · have h2 : (mergedDf natFiles stateRows).map Row.name
        = (List.finRange (mergedDf natFiles stateRows).length).map
            (fun i => ((mergedDf natFiles stateRows).get i).name) := by
      conv_lhs => rw [← List.finRange_map_get (mergedDf natFiles stateRows)]
      rw [List.map_map]
      rfl
    rw [h2]
    simp only [load_data, List.map_map]
    rfl
  · intro r hr
    rw [load_data] at hr
    rcases List.mem_map.mp hr with ⟨i, _, rfl⟩
    show pyCapitalize ((mergedDf natFiles stateRows).get i).name
      = ((mergedDf natFiles stateRows).get i).name
    have hm : (mergedDf natFiles stateRows).get i ∈ mergedDf natFiles stateRows :=
      List.get_mem _ _ _
    rcases List.mem_append.mp hm with hl | hrr
    · rcases List.mem_flatMap.mp hl with ⟨f, hf, hmem⟩
      rcases List.mem_map.mp hmem with ⟨rec, hrec, heq⟩
      rw [← heq]
      exact hnat f hf rec hrec
    · exact hst _ hrr

theorem load_data_names_verbatim_witness :
    (load_data [] [rowA]).map OutRow.name = (mergedDf [] [rowA]).map Row.name
      ∧ ∀ r ∈ load_data [] [rowA], pyCapitalize r.name = r.name :=
  load_data_names_verbatim [] [rowA] (by simp) (by decide)

theorem pySplit_ne_nil (sep : Char) : ∀ l : List Char, pySplit sep l ≠ []
  | [] => by simp [pySplit]
  | c :: rest => by
    rw [pySplit]
    rcases hr : pySplit sep rest with _ | ⟨hd, tl⟩
    · simp
    · by_cases hc : c = sep <;> simp [hc]

theorem parsed_names_ne_nil (s : String) : parsed_names s ≠ [] := by
  simp only [parsed_names, pySplitOn, ne_eq, List.map_eq_nil_iff]
  exact pySplit_ne_nil ',' s.data

theorem parsed_names_not_isEmpty (s : String) :
    (parsed_names s).isEmpty = false := by
  rcases h : parsed_names s with _ | ⟨a, l⟩
  · exact absurd h (parsed_names_ne_nil s)
  · rfl

/-- C3: check_match is true exactly when the exact-match mask selects at
least one row; and on comma-separated input the driver builds the token
list by splitting on `,` and stripping and capitalizing each token
(parsed_names), is never a no-op, and plots exactly when check_match holds
for every token — the conjunction over all tokens. -/
theorem check_match_spec (df : List OutRow) (text : String) (years : List Int)
    (states : List String) (s : String) (lo hi : Int)
    (genders : List String) (hc : pyContains s ',' = true) :
    (check_match df text years states = true
        ↔ ∃ r ∈ df, r.name = pyCapitalize text
            ∧ r.year ∈ years ∧ r.state ∈ states)
      ∧ driver df (some s) lo hi states genders ≠ Outcome.noInput
      ∧ ((∃ rows, driver df (some s) lo hi states genders = Outcome.plot rows)
          ↔ ∀ n ∈ parsed_names s,
              check_match df n [lo, hi] states = true) := by
  refine ⟨?_, ?_, ?_⟩
  · simp [check_match, find_matching_rows, List.any_eq_true, and_assoc]
  · by_cases hall : (parsed_names s).all
        (fun n => check_match df n [lo, hi] states) = true
    · simp [driver, hc, parsed_names_not_isEmpty s, hall]
    · simp [driver, hc, parsed_names_not_isEmpty s, hall]
  · by_cases hall : (parsed_names s).all
        (fun n => check_match df n [lo, hi] states) = true
    · refine iff_of_true ⟨plotFilter df (Sum.inr (parsed_names s)) states lo hi
        (effectiveGenders genders), ?_⟩ (List.all_eq_true.mp hall)
      simp [driver, hc, parsed_names_not_isEmpty s, hall]
    · refine iff_of_false ?_ ?_
      · rintro ⟨rows, hrow⟩
        simp [driver, hc, parsed_names_not_isEmpty s, hall] at hrow
      · intro hall2
        exact hall (List.all_eq_true.mpr hall2)

theorem check_match_spec_witness :
    (check_match [orowA] "emma" [2015] ["nation"] = true
        ↔ ∃ r ∈ ([orowA] : List OutRow), r.name = pyCapitalize "emma"
            ∧ r.year ∈ [(2015 : Int)] ∧ r.state ∈ ["nation"])
      ∧ driver [orowA] (some "a,b") 2015 2024 ["nation"] ["F", "M"]
          ≠ Outcome.noInput
      ∧ ((∃ rows, driver [orowA] (some "a,b") 2015 2024 ["nation"] ["F", "M"]
            = Outcome.plot rows)
          ↔ ∀ n ∈ parsed_names "a,b",
              check_match [orowA] n [2015, 2024] ["nation"] = true) :=
  check_match_spec [orowA] "emma" [2015] ["nation"] "a,b" 2015 2024
    ["F", "M"] (by decide)

theorem applyMask_map (df : List OutRow) (f : OutRow → Bool) :
    applyMask df (df.map f) = df.filter f := by
  induction df with
  | nil => rfl
  | cons a l ih =>
    simp only [applyMask, List.map_cons, List.zip_cons_cons,
      List.filterMap_cons] at ih ⊢
    by_cases h : f a = true
    · simp [h, List.filter_cons, ih]
    · simp [h, List.filter_cons, ih]

/-- C6: the suggestion helper returns at most n_rows names, all distinct,
sorted lexicographically ascending, each starting with the capitalized
input text and each the name of a table row whose year and state belong to
the selected years and states. -/
theorem filter_name_spec (df : List OutRow) (text : String) (years : List Int)
    (states : List String) (n_rows : ℕ) :
    (filter_name df text years states n_rows).length ≤ n_rows
      ∧ (filter_name df text years states n_rows).Nodup
      ∧ List.Sorted (· ≤ ·) (filter_name df text years states n_rows)
      ∧ ∀ s ∈ filter_name df text years states n_rows,
          (pyCapitalize text).data <+: s.data
            ∧ ∃ r ∈ df, r.name = s ∧ r.year ∈ years ∧ r.state ∈ states := by
  refine ⟨?_, ?_, ?_, ?_⟩
  · rw [filter_name]
    simp [List.length_take]
  · exact (List.take_sublist _ _).nodup
      ((List.mergeSort_perm _ _).symm.nodup (List.nodup_dedup _))
  · exact List.Pairwise.sublist (List.take_sublist _ _)
      (List.sorted_mergeSort' _)
  · intro s hs
    rw [filter_name] at hs
    have h1 := List.mem_of_mem_take hs
    rw [List.mem_mergeSort, List.mem_dedup] at h1
    rw [show find_matching_rows df text years states true
        = df.map (fun r => pyStartsWith r.name (pyCapitalize text)
            && decide (r.year ∈ years) && decide (r.state ∈ states)) from rfl,
      applyMask_map] at h1
    rcases List.mem_map.mp h1 with ⟨r, hr, rfl⟩
    rcases List.mem_filter.mp hr with ⟨hrdf, hrb⟩
    simp only [Bool.and_eq_true, decide_eq_true_eq, pyStartsWith] at hrb
    exact ⟨hrb.1.1, r, hrdf, rfl, hrb.1.2, hrb.2⟩

/-- C7 counterexample: whitespace-only input is not treated as "no input" —
the module tail runs the exact-name matching on the literal whitespace text
and reports it as a not-found name, instead of short-circuiting into the
no-input branch. -/
theorem whitespace_input_matches_counterexample :
    driver [orowA] (some " ") 2015 2024 ["nation"] ["F", "M"]
        = Outcome.notFound [" "]
      ∧ Outcome.notFound [" "] ≠ Outcome.noInput := by
  exact ⟨rfl, by decide⟩

/-- C7 amended: an absent value and the empty string are treated as "no
input" (no matching, no plotting); whitespace-only text, however, is NOT
short-circuited — the single-name path capitalizes it without stripping and
runs the exact matcher on it, and whenever that matcher selects no row the
outcome is a not-found message.  In particular degenerate text never acts
as a universal match: nothing is plotted unless check_match succeeds. -/
theorem empty_input_noop (df : List OutRow) (lo hi : Int)
    (states genders : List String) (s : String)
    (hnc : pyContains s ',' = false)
    (hnm : check_match df (pyCapitalize s) [lo, hi] states = false) :
    driver df none lo hi states genders = Outcome.noInput
      ∧ driver df (some "") lo hi states genders = Outcome.noInput
      ∧ (pyCapitalize s = "" →
          driver df (some s) lo hi states genders = Outcome.noInput)
      ∧ (pyCapitalize s ≠ "" →
          driver df (some s) lo hi states genders
            = Outcome.notFound [pyCapitalize s]) := by
  refine ⟨rfl, rfl, ?_, ?_⟩
  · intro he
    simp [driver, hnc, he]
  · intro he
    simp [driver, hnc, hnm, he]

theorem empty_input_noop_witness :
    driver [orowA] (some " ") 2015 2024 ["nation"] ["F", "M"]
      = Outcome.notFound [pyCapitalize " "] :=
  (empty_input_noop [orowA] 2015 2024 ["nation"] ["F", "M"] " "
    (by decide) (by decide)).2.2.2 (by decide)

/-- C8: the plot filter is total and yields the empty slice on every
degenerate selection — an inverted year range (min greater than max), an
empty state set, or an empty gender set — because every predicate is
conjoined and membership in an empty collection is false. -/
theorem plotFilter_degenerate_empty (df : List OutRow)
    (nameSel : Sum String (List String)) (states genders : List String)
    (lo hi : Int) :
    (hi < lo → plotFilter df nameSel states lo hi genders = [])
      ∧ (states = [] → plotFilter df nameSel states lo hi genders = [])
      ∧ (genders = [] → plotFilter df nameSel states lo hi genders = []) := by
  refine ⟨fun h => ?_, fun h => ?_, fun h => ?_⟩
  · rw [plotFilter, List.filter_eq_nil_iff]
    intro r _ hcon
    simp only [Bool.and_eq_true, decide_eq_true_eq] at hcon
    obtain ⟨⟨⟨-, -⟩, hy1, hy2⟩, -⟩ := hcon
    omega
  · subst h
    rw [plotFilter, List.filter_eq_nil_iff]
    intro r _ hcon
    simp only [Bool.and_eq_true, decide_eq_true_eq] at hcon
    exact (List.not_mem_nil r.state) hcon.1.1.2
  · subst h
    rw [plotFilter, List.filter_eq_nil_iff]
    intro r _ hcon
    simp only [Bool.and_eq_true, decide_eq_true_eq] at hcon
    exact (List.not_mem_nil r.gender) hcon.2

theorem plotFilter_degenerate_empty_witness :
    plotFilter [orowA] (Sum.inl "Emma") ["nation"] 2020 2010 ["F"] = []
      ∧ plotFilter [orowA] (Sum.inl "Emma") [] 2015 2024 ["F"] = []
      ∧ plotFilter [orowA] (Sum.inl "Emma") ["nation"] 2015 2024 [] = [] :=
  ⟨(plotFilter_degenerate_empty [orowA] (Sum.inl "Emma") ["nation"] ["F"]
      2020 2010).1 (by decide),
   (plotFilter_degenerate_empty [orowA] (Sum.inl "Emma") [] ["F"]
      2015 2024).2.1 rfl,
   (plotFilter_degenerate_empty [orowA] (Sum.inl "Emma") ["nation"] []
      2015 2024).2.2 rfl⟩

/-- C9 (code bug): clearing every gender option leaves the effective
selection empty — the guarded reset of lines 223-225 assigns an attribute
on the list object and never produces the documented `["F", "M"]`
fallback, contradicting the comment "In case the user removes all values,
reset them". -/
theorem gender_fallback_not_applied :
    effectiveGenders [] = ([] : List String)
      ∧ effectiveGenders [] ≠ ["F", "M"] :=
  ⟨rfl, by decide⟩
